import Mathlib

/-!
Verification of the anomaly-detection notebook
(`Final_Anomaly_Detection_Project.ipynb`).

The notebook is a linear pipeline over a tabular dataset:
load → label-encode categorical columns → standard-scale (drop label
column 41) → isolation-forest scoring → autoencoder scoring
(threshold = mean + 3·std of reconstruction errors) → evaluation against
`df[41] != 'normal.'`.

We embed the pipeline shallowly over `ℚ`.  A table is a list of columns;
each column is either an object (string) column or a numeric column,
mirroring pandas dtypes.  `np.std` / the scaler's per-column standard
deviation involve a square root, which is not rational, so every
definition that needs it takes the standard-deviation function `std`
as an explicit argument; theorems that depend on its value carry the
hypothesis `0 ≤ std xs ∧ (std xs)^2 = variance xs`, which pins `std xs`
to the unique nonnegative square root of the population variance —
exactly `np.std(xs)`.
-/

namespace AnomalyNb

/-- Population mean, as computed by `np.mean` / `StandardScaler.mean_`
(`[]` maps to `0` since `0 / 0 = 0` in `ℚ`). -/
def mean (xs : List ℚ) : ℚ := xs.sum / xs.length

/-- Population variance (`ddof = 0`), as computed by `np.var` /
`StandardScaler.var_`; `np.std xs = sqrt (variance xs)`. -/
def variance (xs : List ℚ) : ℚ :=
  mean (xs.map (fun x => (x - mean xs) ^ 2))

/-- A pandas column: object dtype (strings) or numeric dtype. -/
inductive Col where
  | obj (vals : List String)
  | num (vals : List ℚ)
deriving DecidableEq

/-- Number of entries of a column. -/
def Col.len : Col → ℕ
  | Col.obj vs => vs.length
  | Col.num vs => vs.length

/-- `sklearn.LabelEncoder().fit_transform` on one object column:
each value is replaced by its rank among the sorted distinct values,
i.e. the number of distinct values strictly below it. -/
def labelEncode (vals : List String) : List ℚ :=
  vals.map (fun v => ((vals.dedup.filter (fun w => decide (w < v))).length : ℚ))

/-- One column of `df_encoded`: object columns are label-encoded,
numeric columns are kept as they are. -/
def encodeCol : Col → List ℚ
  | Col.obj vs => labelEncode vs
  | Col.num vs => vs

/-- `df_encoded` before the anomaly columns are appended: every object
column of `df` label-encoded, numeric columns unchanged. -/
def encodeTable (df : List Col) : List (List ℚ) := df.map encodeCol

/-- `StandardScaler.fit_transform` on one numeric column: subtract the
column mean and divide by the column standard deviation.  sklearn guards
a zero standard deviation (zero-variance column) by using scale `1`
(`_handle_zeros_in_scale`), so the transform never divides by zero. -/
def scaleCol (std : List ℚ → ℚ) (col : List ℚ) : List ℚ :=
  col.map (fun x => (x - mean col) / (if std col = 0 then 1 else std col))

/-- `X_scaled = scaler.fit_transform(df_encoded.drop(columns=[41]))`:
the encoded table with column 41 removed, every remaining column
standard-scaled.  Column-major, like `encodeTable`. -/
def xScaled (std : List ℚ → ℚ) (df : List Col) : List (List ℚ) :=
  ((encodeTable df).eraseIdx 41).map (scaleCol std)

/-- The raw strings of the label column `df[41]`.  A numeric column
compared against the string `'normal.'` in pandas is elementwise
unequal, which the embedding renders by a string that is never
`"normal."`. -/
def col41Strings (df : List Col) : List String :=
  match df.getD 41 (Col.obj []) with
  | Col.obj vs => vs
  | Col.num vs => vs.map (fun _ => "")

/-- `(df[41] != 'normal.').astype(int)`: `1` iff the raw label string
differs from the literal `"normal."`, else `0`. -/
def trueLabels (vals : List String) : List ℕ :=
  vals.map (fun s => if s ≠ "normal." then 1 else 0)

/-- `threshold = np.mean(mse) + 3 * np.std(mse)`, with `np.std` passed
as the function argument `std`. -/
def autoThreshold (std : List ℚ → ℚ) (errors : List ℚ) : ℚ :=
  mean errors + 3 * std errors

/-- `df_encoded['anomaly_autoencoder'] = (mse > threshold).astype(int)`:
`1` iff the row's reconstruction error strictly exceeds the threshold
computed from the same error array, else `0`. -/
def anomalyAutoencoder (std : List ℚ → ℚ) (errors : List ℚ) : List ℕ :=
  errors.map (fun e => if autoThreshold std errors < e then 1 else 0)

/-- `tf.keras.losses.mse(X, R)` for column-major matrices `X`, `R` with
`n` rows: per row, the mean over the feature axis of the squared
difference between the row and its reconstruction. -/
def mseRows (X R : List (List ℚ)) (n : ℕ) : List ℚ :=
  (List.range n).map (fun i =>
    mean ((X.zip R).map (fun p => (p.1.getD i 0 - p.2.getD i 0) ^ 2)))

/-! ### Isolation-forest scorer (spec-modelled)

`sklearn.ensemble.IsolationForest` is not part of this repository; only
its call site is.  Modelled from the spec: the scorer "fits an ensemble
of randomized partitioning trees and emits a per-row decision: anomalous
if the average partitioning depth to isolate the row is below a
model-internal threshold implied by the contamination parameter",
deterministically in the seed, with sentinel `-1` for anomalous and `+1`
for normal.  The ensemble's average isolation depth is modelled as a
deterministic pseudo-random score derived from the seed and the row's
values; the model-internal threshold selects the
`⌊contamination · n⌋` lowest-scoring rows (ties broken by row index) as
anomalous. -/

/-- Modelled from the spec: the per-row average isolation depth of the
seeded random tree ensemble, as a deterministic pseudo-random function
of the seed and the row. -/
def isoScore (seed : ℕ) (row : List ℚ) : ℚ :=
  row.foldl (fun a x => a * ((seed : ℚ) + 2) + x) 0

/-- Strict ordering on row indices by (score, index): ties in the score
are broken by the row index, so the order is total and without ties. -/
def isoKeyLt (seed : ℕ) (rows : List (List ℚ)) (j i : ℕ) : Prop :=
  isoScore seed (rows.getD j []) < isoScore seed (rows.getD i []) ∨
    (isoScore seed (rows.getD j []) = isoScore seed (rows.getD i []) ∧ j < i)

instance (seed : ℕ) (rows : List (List ℚ)) (j i : ℕ) :
    Decidable (isoKeyLt seed rows j i) := by
  unfold isoKeyLt; infer_instance

/-- Rank of row `i`: how many rows score strictly below it (ties broken
by index). -/
def isoRank (seed : ℕ) (rows : List (List ℚ)) (i : ℕ) : ℕ :=
  ((List.range rows.length).filter (fun j => decide (isoKeyLt seed rows j i))).length

/-- Modelled from the spec: `IsolationForest(contamination=c,
random_state=seed).fit_predict(rows)` — the `⌊c · n⌋` lowest-scoring
rows get sentinel `-1` (anomalous), all others `+1` (normal). -/
def isoForestLabels (seed : ℕ) (c : ℚ) (rows : List (List ℚ)) : List ℤ :=
  (List.range rows.length).map (fun i =>
    if isoRank seed rows i < (c * rows.length).floor.toNat then -1 else 1)

/-- Modelled from the spec: a `fit_predict` run.  `randomState` is the
constructor's `random_state` argument; `entropy` is the ambient system
entropy the library would fall back to were `random_state` unset. -/
def isoForestFitPredict (randomState : Option ℕ) (entropy : ℕ) (c : ℚ)
    (rows : List (List ℚ)) : List ℤ :=
  isoForestLabels (randomState.getD entropy) c rows

/-- `df_encoded['anomaly_iforest'] == -1`: the evaluator's normalization
of the isolation-forest sentinels to booleans. -/
def isoPred (labels : List ℤ) : List Bool :=
  labels.map (fun l => l == -1)

/-! ### The notebook pipeline -/

/-- The in-memory state the notebook cells build up.  `df` is the raw
loaded table; `dfEncoded` is the working copy (`df.copy()` then
label-encoded in place); the anomaly and ground-truth columns the code
stores into `df_encoded` are carried as separate fields. -/
structure NotebookState where
  df : List Col
  dfEncoded : List (List ℚ)
  xs : List (List ℚ)
  anomalyIforest : List ℤ
  anomalyAutoenc : List ℕ
  trueLabel : List ℕ
deriving DecidableEq

/-- Number of rows of the raw table (length of its first column). -/
def nRows (df : List Col) : ℕ := (df.getD 0 (Col.num [])).len

/-- Rows of a column-major matrix with `n` rows. -/
def rowsOf (X : List (List ℚ)) (n : ℕ) : List (List ℚ) :=
  (List.range n).map (fun i => X.map (fun c => c.getD i 0))

/-- Cell 2: `df = pd.read_csv(...)`. -/
def cellLoad (df : List Col) : NotebookState :=
  ⟨df, [], [], [], [], []⟩

/-- Cell 4: `df_encoded = df.copy()`, label-encode its object columns,
`X_scaled = scaler.fit_transform(df_encoded.drop(columns=[41]))`. -/
def cellEncode (std : List ℚ → ℚ) (s : NotebookState) : NotebookState :=
  { s with dfEncoded := encodeTable s.df
           xs := ((encodeTable s.df).eraseIdx 41).map (scaleCol std) }

/-- Cell 6: `df_encoded['anomaly_iforest'] =
IsolationForest(contamination=0.05, random_state=42).fit_predict(X_scaled)`. -/
def cellIforest (entropy : ℕ) (s : NotebookState) : NotebookState :=
  { s with anomalyIforest :=
      isoForestFitPredict (some 42) entropy (1 / 20) (rowsOf s.xs (nRows s.df)) }

/-- Cell 8: train the autoencoder on `X_scaled`, reconstruct, take the
per-row mse and threshold it at `mean + 3 * std`.  `ae` models the
trained network's reconstruction map (a function of the training matrix,
for a fixed weight initialization), `std` models `np.std`. -/
def cellAutoenc (std : List ℚ → ℚ) (ae : List (List ℚ) → List (List ℚ))
    (s : NotebookState) : NotebookState :=
  { s with anomalyAutoenc :=
      anomalyAutoencoder std (mseRows s.xs (ae s.xs) (nRows s.df)) }

/-- Cell 10: `df_encoded['true_label'] = (df[41] != 'normal.').astype(int)` —
note it reads the raw `df`, not `df_encoded`. -/
def cellEval (s : NotebookState) : NotebookState :=
  { s with trueLabel := trueLabels (col41Strings s.df) }

/-- The whole notebook, top to bottom. -/
def runPipeline (std : List ℚ → ℚ) (ae : List (List ℚ) → List (List ℚ))
    (entropy : ℕ) (df : List Col) : NotebookState :=
  cellEval (cellAutoenc std ae (cellIforest entropy (cellEncode std (cellLoad df))))

/-! ### Statistics lemmas -/

theorem sum_map_center_div (col : List ℚ) (μ s : ℚ) :
    (col.map (fun x => (x - μ) / s)).sum = (col.sum - col.length * μ) / s := by
  induction col with
  | nil => simp
  | cons a t ih =>
    simp only [List.map_cons, List.sum_cons, ih, List.length_cons]
    push_cast
    ring

theorem sum_map_sq_center_div (col : List ℚ) (μ s : ℚ) :
    (col.map (fun x => ((x - μ) / s) ^ 2)).sum =
      (col.map (fun x => (x - μ) ^ 2)).sum / s ^ 2 := by
  induction col with
  | nil => simp
  | cons a t ih =>
    simp only [List.map_cons, List.sum_cons, ih]
    ring

theorem length_pos_of_ne_nil {col : List ℚ} (h : col ≠ []) :
    (0 : ℚ) < col.length := by
  have : 0 < col.length := List.length_pos.mpr h
  exact_mod_cast this

/-- A list of centered squares summing to zero is constantly at the mean. -/
theorem eq_of_sum_sq_eq_zero {l : List ℚ} {μ : ℚ}
    (h : (l.map (fun x => (x - μ) ^ 2)).sum = 0) : ∀ x ∈ l, x = μ := by
  induction l with
  | nil => simp
  | cons a t ih =>
    simp only [List.map_cons, List.sum_cons] at h
    have hts : (0 : ℚ) ≤ (t.map (fun x => (x - μ) ^ 2)).sum := by
      apply List.sum_nonneg
      intro x hx
      obtain ⟨y, _, rfl⟩ := List.mem_map.mp hx
      positivity
    have ha2 : (0 : ℚ) ≤ (a - μ) ^ 2 := sq_nonneg _
    have ha : (a - μ) ^ 2 = 0 := le_antisymm (by linarith) ha2
    have ht : (t.map (fun x => (x - μ) ^ 2)).sum = 0 := le_antisymm (by linarith) hts
    intro x hx
    rcases List.mem_cons.mp hx with rfl | hx
    · have := pow_eq_zero_iff (n := 2) (by norm_num) |>.mp ha
      linarith
    · exact ih ht x hx

theorem variance_eq_zero_iff {col : List ℚ} (hne : col ≠ []) :
    variance col = 0 ↔ ∀ x ∈ col, x = mean col := by
  have hn : (0 : ℚ) < col.length := length_pos_of_ne_nil hne
  constructor
  · intro h
    have hsum : (col.map (fun x => (x - mean col) ^ 2)).sum = 0 := by
      have h' : (col.map (fun x => (x - mean col) ^ 2)).sum /
          ((col.map (fun x => (x - mean col) ^ 2)).length : ℚ) = 0 := h
      rw [List.length_map] at h'
      rcases div_eq_zero_iff.mp h' with hs | hl
      · exact hs
      · exact absurd hl (by positivity)
    exact eq_of_sum_sq_eq_zero hsum
  · intro h
    unfold variance
    have : col.map (fun x => (x - mean col) ^ 2) = col.map (fun _ => 0) := by
      apply List.map_congr_left
      intro x hx
      rw [h x hx]
      ring
    rw [this]
    unfold mean
    simp

theorem mean_eq_sum_div (l : List ℚ) : mean l = l.sum / (l.length : ℚ) := rfl

theorem variance_eq_sum_div (l : List ℚ) :
    variance l = (l.map (fun x => (x - mean l) ^ 2)).sum / (l.length : ℚ) := by
  show mean (l.map fun x => (x - mean l) ^ 2) = _
  rw [mean_eq_sum_div, List.length_map]

theorem mean_scaleCol_of_ne (std : List ℚ → ℚ) (col : List ℚ) (hne : col ≠ [])
    (h0 : std col ≠ 0) : mean (scaleCol std col) = 0 := by
  have hn : (0 : ℚ) < col.length := length_pos_of_ne_nil hne
  unfold scaleCol
  rw [if_neg h0]
  rw [mean_eq_sum_div, List.length_map, sum_map_center_div]
  have hμ : (col.length : ℚ) * mean col = col.sum := by
    rw [mean_eq_sum_div]
    field_simp
  rw [hμ]
  simp

theorem variance_scaleCol (std : List ℚ → ℚ) (col : List ℚ) (hne : col ≠ [])
    (hsq : (std col) ^ 2 = variance col) (hv : variance col ≠ 0) :
    variance (scaleCol std col) = 1 := by
  have hn : (0 : ℚ) < col.length := length_pos_of_ne_nil hne
  have hn0 : (col.length : ℚ) ≠ 0 := ne_of_gt hn
  have h0 : std col ≠ 0 := by
    intro h
    apply hv
    rw [← hsq, h]
    ring
  have hzs : scaleCol std col = col.map (fun x => (x - mean col) / std col) := by
    unfold scaleCol
    rw [if_neg h0]
  have hμ0 : mean (col.map (fun x => (x - mean col) / std col)) = 0 :=
    hzs ▸ mean_scaleCol_of_ne std col hne h0
  have hS2 : (col.map (fun x => (x - mean col) ^ 2)).sum =
      variance col * col.length := by
    rw [variance_eq_sum_div]
    field_simp
  rw [variance_eq_sum_div, hzs, hμ0]
  simp only [sub_zero, List.length_map, List.map_map]
  rw [show ((fun x : ℚ => x ^ 2) ∘ fun x => (x - mean col) / std col) =
      (fun x => ((x - mean col) / std col) ^ 2) from rfl]
  rw [sum_map_sq_center_div, hS2, ← hsq]
  have hs2 : (std col) ^ 2 ≠ 0 := pow_ne_zero _ h0
  field_simp

theorem getD_map_of_lt {α β : Type _} (f : α → β) (l : List α) (i : ℕ)
    (h : i < l.length) (d : α) (d' : β) :
    (l.map f).getD i d' = f (l.getD i d) := by
  rw [List.getD_eq_getElem?_getD, List.getD_eq_getElem?_getD, List.getElem?_map,
    List.getElem?_eq_getElem h]
  simp

/-! ### The claims -/

/-- C1: the autoencoder scorer's threshold is exactly
`mean(errors) + 3 * std(errors)` computed over the very error array being
thresholded, and a row is labeled `1` iff its reconstruction error
strictly exceeds that threshold, else `0`. -/
theorem autoencoder_threshold_and_labels (std : List ℚ → ℚ) (errors : List ℚ)
    (i : ℕ) (h : i < errors.length) :
    autoThreshold std errors = mean errors + 3 * std errors ∧
    (anomalyAutoencoder std errors).length = errors.length ∧
    ((anomalyAutoencoder std errors).getD i 0 = 1 ↔
      autoThreshold std errors < errors.getD i 0) ∧
    ((anomalyAutoencoder std errors).getD i 0 = 0 ↔
      ¬ autoThreshold std errors < errors.getD i 0) := by
  refine ⟨rfl, List.length_map _ _, ?_, ?_⟩
  · unfold anomalyAutoencoder
    rw [getD_map_of_lt _ _ _ h 0 0]
    split_ifs with hlt
    · exact iff_of_true rfl hlt
    · exact iff_of_false not_false hlt
  · unfold anomalyAutoencoder
    rw [getD_map_of_lt _ _ _ h 0 0]
    split_ifs with hlt
    · exact iff_of_false not_false (not_not_intro hlt)
    · exact iff_of_true rfl hlt

theorem autoencoder_threshold_and_labels_witness :
    (2 < ([0, 2, 10] : List ℚ).length) ∧
    (autoThreshold (fun _ => 1) [0, 2, 10] = mean [0, 2, 10] + 3 * 1 ∧
     (anomalyAutoencoder (fun _ => 1) [0, 2, 10]).length =
       ([0, 2, 10] : List ℚ).length ∧
     ((anomalyAutoencoder (fun _ => 1) [0, 2, 10]).getD 2 0 = 1 ↔
       autoThreshold (fun _ => 1) [0, 2, 10] < ([0, 2, 10] : List ℚ).getD 2 0) ∧
     ((anomalyAutoencoder (fun _ => 1) [0, 2, 10]).getD 2 0 = 0 ↔
       ¬ autoThreshold (fun _ => 1) [0, 2, 10] < ([0, 2, 10] : List ℚ).getD 2 0)) :=
  ⟨by decide, autoencoder_threshold_and_labels (fun _ => 1) [0, 2, 10] 2 (by decide)⟩

/-- C2: the ground-truth label of a record is `1` iff the raw label
string in column 41 differs from the literal, case-sensitive string
`"normal."`, and `0` otherwise. -/
theorem true_label_iff_not_normal (df : List Col) (i : ℕ)
    (h : i < (col41Strings df).length) :
    ((trueLabels (col41Strings df)).getD i 0 = 1 ↔
      (col41Strings df).getD i "" ≠ "normal.") ∧
    ((trueLabels (col41Strings df)).getD i 0 = 0 ↔
      (col41Strings df).getD i "" = "normal.") := by
  unfold trueLabels
  rw [getD_map_of_lt _ _ _ h "" 0]
  split_ifs with hs
  · exact ⟨iff_of_true rfl hs, iff_of_false not_false hs⟩
  · exact ⟨iff_of_false not_false hs, iff_of_true rfl (not_not.mp hs)⟩

theorem true_label_iff_not_normal_witness :
    (1 < (col41Strings
        (List.replicate 41 (Col.num [0, 1]) ++
          [Col.obj ["normal.", "smurf."]])).length) ∧
    (((trueLabels (col41Strings
          (List.replicate 41 (Col.num [0, 1]) ++
            [Col.obj ["normal.", "smurf."]]))).getD 1 0 = 1 ↔
        (col41Strings (List.replicate 41 (Col.num [0, 1]) ++
          [Col.obj ["normal.", "smurf."]])).getD 1 "" ≠ "normal.") ∧
      ((trueLabels (col41Strings
          (List.replicate 41 (Col.num [0, 1]) ++
            [Col.obj ["normal.", "smurf."]]))).getD 1 0 = 0 ↔
        (col41Strings (List.replicate 41 (Col.num [0, 1]) ++
          [Col.obj ["normal.", "smurf."]])).getD 1 "" = "normal.")) :=
  ⟨by with_unfolding_all decide,
    true_label_iff_not_normal _ 1 (by with_unfolding_all decide)⟩

/-- C4: after normalization, every non-degenerate column of the
normalized matrix has mean exactly 0 and variance exactly 1 (hence
standard deviation 1), where the transform `(x - mean) / std` uses the
mean and standard deviation of the very column being transformed. -/
theorem scaled_column_standardized (std : List ℚ → ℚ) (col : List ℚ)
    (hne : col ≠ []) (hstd : 0 ≤ std col ∧ (std col) ^ 2 = variance col)
    (hv : variance col ≠ 0) :
    mean (scaleCol std col) = 0 ∧ variance (scaleCol std col) = 1 := by
  have h0 : std col ≠ 0 := by
    intro h
    apply hv
    rw [← hstd.2, h]
    ring
  exact ⟨mean_scaleCol_of_ne std col hne h0,
    variance_scaleCol std col hne hstd.2 hv⟩

theorem scaled_column_standardized_witness :
    (([0, 2] : List ℚ) ≠ [] ∧ ((0:ℚ) ≤ 1 ∧ (1:ℚ) ^ 2 = variance [0, 2]) ∧
      variance [0, 2] ≠ 0) ∧
    (mean (scaleCol (fun _ => 1) [0, 2]) = 0 ∧
      variance (scaleCol (fun _ => 1) [0, 2]) = 1) :=
  ⟨⟨by decide, ⟨by with_unfolding_all decide, by with_unfolding_all decide⟩,
      by with_unfolding_all decide⟩,
    scaled_column_standardized (fun _ => 1) [0, 2] (by decide)
      ⟨by with_unfolding_all decide, by with_unfolding_all decide⟩
      (by with_unfolding_all decide)⟩

/-- C8 counterexample: on the zero-variance column `[5, 5, 5]` (whose
`np.std` is exactly `0`, certified by the two middle conjuncts), the
scaler completes and produces `[0, 0, 0]` instead of failing: sklearn's
`StandardScaler` guards a zero scale by dividing by `1`. -/
theorem degenerate_column_counterexample :
    variance [5, 5, 5] = 0 ∧ (0:ℚ) ≤ 0 ∧ (0:ℚ) ^ 2 = variance [5, 5, 5] ∧
    scaleCol (fun _ => 0) [5, 5, 5] = [0, 0, 0] := by
  with_unfolding_all decide

/-- C8 (amended): when a numeric column has zero variance, the
normalizer does not fail — the zero scale is guarded to `1` and the
column is mapped to all zeros. -/
theorem degenerate_column_scales_to_zero (std : List ℚ → ℚ) (col : List ℚ)
    (hsq : (std col) ^ 2 = variance col) (hv : variance col = 0) :
    scaleCol std col = col.map (fun _ => 0) := by
  rcases eq_or_ne col [] with rfl | hne
  · rfl
  · have h0 : std col = 0 := by
      have h' : (std col) ^ 2 = 0 := by rw [hsq, hv]
      exact pow_eq_zero_iff (n := 2) (by norm_num) |>.mp h'
    have hall := (variance_eq_zero_iff hne).mp hv
    unfold scaleCol
    rw [h0, if_pos rfl]
    apply List.map_congr_left
    intro x hx
    rw [hall x hx]
    simp

theorem degenerate_column_scales_to_zero_witness :
    ((0:ℚ) ^ 2 = variance [5, 5] ∧ variance [5, 5] = 0) ∧
    scaleCol (fun _ => 0) [5, 5] = ([5, 5] : List ℚ).map (fun _ => 0) :=
  ⟨⟨by with_unfolding_all decide, by with_unfolding_all decide⟩,
    degenerate_column_scales_to_zero (fun _ => 0) [5, 5]
      (by with_unfolding_all decide) (by with_unfolding_all decide)⟩

theorem encodeCol_length (c : Col) : (encodeCol c).length = c.len := by
  cases c <;> simp [encodeCol, labelEncode, Col.len]

/-- C3: for any 42-column input table, the encoder/normalizer produces a
numeric matrix with one column fewer than the input (the label column at
index 41 is dropped) and with every column of the same length as the
input columns (same row count). -/
theorem xscaled_shape (std : List ℚ → ℚ) (df : List Col) (n : ℕ)
    (h42 : df.length = 42) (hn : ∀ c ∈ df, c.len = n) :
    (xScaled std df).length = df.length - 1 ∧
    ∀ col ∈ xScaled std df, col.length = n := by
  have henc : (encodeTable df).length = df.length := List.length_map _ _
  constructor
  · unfold xScaled
    rw [List.length_map, List.length_eraseIdx, henc, h42]
    norm_num
  · intro col hcol
    unfold xScaled at hcol
    obtain ⟨c', hc', rfl⟩ := List.mem_map.mp hcol
    have hc'' : c' ∈ encodeTable df := List.eraseIdx_subset _ _ hc'
    obtain ⟨c, hc, rfl⟩ := List.mem_map.mp hc''
    show (scaleCol std (encodeCol c)).length = n
    unfold scaleCol
    rw [List.length_map, encodeCol_length, hn c hc]

theorem xscaled_shape_witness :
    ((List.replicate 41 (Col.num [0]) ++ [Col.obj ["a"]]).length = 42 ∧
      (∀ c ∈ List.replicate 41 (Col.num [0]) ++ [Col.obj ["a"]], c.len = 1)) ∧
    ((xScaled (fun _ => 0)
        (List.replicate 41 (Col.num [0]) ++ [Col.obj ["a"]])).length =
      (List.replicate 41 (Col.num [0]) ++ [Col.obj ["a"]]).length - 1 ∧
      ∀ col ∈ xScaled (fun _ => 0)
        (List.replicate 41 (Col.num [0]) ++ [Col.obj ["a"]]),
        col.length = 1) :=
  ⟨⟨by with_unfolding_all decide, by with_unfolding_all decide⟩,
    xscaled_shape (fun _ => 0) _ 1 (by with_unfolding_all decide)
      (by with_unfolding_all decide)⟩

/-! ### Counting the isolation-forest anomalies -/

theorem isoKeyLt_irrefl (seed : ℕ) (rows : List (List ℚ)) (i : ℕ) :
    ¬ isoKeyLt seed rows i i := by
  rintro (h | ⟨-, h⟩) <;> exact lt_irrefl _ h

theorem isoKeyLt_trans {seed : ℕ} {rows : List (List ℚ)} {a b c : ℕ}
    (h₁ : isoKeyLt seed rows a b) (h₂ : isoKeyLt seed rows b c) :
    isoKeyLt seed rows a c := by
  rcases h₁ with h₁ | ⟨e₁, l₁⟩ <;> rcases h₂ with h₂ | ⟨e₂, l₂⟩
  · exact Or.inl (lt_trans h₁ h₂)
  · exact Or.inl (e₂ ▸ h₁)
  · exact Or.inl (e₁ ▸ h₂)
  · exact Or.inr ⟨e₁.trans e₂, lt_trans l₁ l₂⟩

theorem isoKeyLt_total {seed : ℕ} {rows : List (List ℚ)} {i j : ℕ}
    (h : i ≠ j) : isoKeyLt seed rows i j ∨ isoKeyLt seed rows j i := by
  rcases lt_trichotomy (isoScore seed (rows.getD i []))
      (isoScore seed (rows.getD j [])) with hlt | heq | hgt
  · exact Or.inl (Or.inl hlt)
  · rcases h.lt_or_lt with hij | hji
    · exact Or.inl (Or.inr ⟨heq, hij⟩)
    · exact Or.inr (Or.inr ⟨heq.symm, hji⟩)
  · exact Or.inr (Or.inl hgt)

theorem length_filter_range (n : ℕ) (p : ℕ → Bool) :
    ((List.range n).filter p).length =
      ((Finset.range n).filter (fun i => p i = true)).card := by
  induction n with
  | zero => simp
  | succ m ih =>
    rw [List.range_succ, List.filter_append, List.length_append, ih,
      Finset.range_succ, Finset.filter_insert]
    by_cases hp : p m = true
    · rw [if_pos hp, Finset.card_insert_of_not_mem (by simp)]
      simp [hp]
    · rw [if_neg hp]
      simp [hp]

theorem isoRank_eq_card (seed : ℕ) (rows : List (List ℚ)) (i : ℕ) :
    isoRank seed rows i =
      ((Finset.range rows.length).filter
        (fun j => isoKeyLt seed rows j i)).card := by
  unfold isoRank
  rw [length_filter_range]
  congr 1
  ext j
  simp

/-- The rows ranked below `k` by the tie-broken score order are exactly
`k` many, whenever `k ≤ n`: the rank function is a bijection from row
indices onto `{0, …, n-1}`. -/
theorem card_isoRank_lt (seed : ℕ) (rows : List (List ℚ)) (k : ℕ)
    (hk : k ≤ rows.length) :
    ((Finset.range rows.length).filter
      (fun i => isoRank seed rows i < k)).card = k := by
  set n := rows.length with hn
  have hmono : ∀ i j : ℕ, i ∈ Finset.range n → isoKeyLt seed rows i j →
      isoRank seed rows i < isoRank seed rows j := by
    intro i j hi hij
    rw [isoRank_eq_card, isoRank_eq_card]
    apply Finset.card_lt_card
    rw [Finset.ssubset_def]
    constructor
    · intro l hl
      rw [Finset.mem_filter] at hl ⊢
      exact ⟨hl.1, isoKeyLt_trans hl.2 hij⟩
    · intro hsub
      have hi' : i ∈ (Finset.range n).filter
          (fun l => isoKeyLt seed rows l j) := by
        rw [Finset.mem_filter]
        exact ⟨hi, hij⟩
      have hmem := hsub hi'
      rw [Finset.mem_filter] at hmem
      exact isoKeyLt_irrefl seed rows i hmem.2
  have hinj : Set.InjOn (isoRank seed rows) (Finset.range n) := by
    intro i hi j hj heq
    rw [Finset.mem_coe] at hi hj
    by_contra hne
    rcases isoKeyLt_total hne with h | h
    · exact absurd heq (ne_of_lt (hmono i j hi h))
    · exact absurd heq.symm (ne_of_lt (hmono j i hj h))
  have hlt_n : ∀ i ∈ Finset.range n, isoRank seed rows i < n := by
    intro i hi
    have hss : (Finset.range n).filter (fun l => isoKeyLt seed rows l i) ⊂
        Finset.range n := by
      rw [Finset.ssubset_def]
      refine ⟨Finset.filter_subset _ _, fun hsub => ?_⟩
      have := hsub hi
      rw [Finset.mem_filter] at this
      exact isoKeyLt_irrefl seed rows i this.2
    calc isoRank seed rows i
        = ((Finset.range n).filter (fun l => isoKeyLt seed rows l i)).card :=
          isoRank_eq_card seed rows i
      _ < (Finset.range n).card := Finset.card_lt_card hss
      _ = n := Finset.card_range n
  have himg : (Finset.range n).image (isoRank seed rows) = Finset.range n := by
    apply Finset.eq_of_subset_of_card_le
    · intro r hr
      obtain ⟨i, hi, rfl⟩ := Finset.mem_image.mp hr
      exact Finset.mem_range.mpr (hlt_n i hi)
    · rw [Finset.card_image_of_injOn hinj, Finset.card_range]
  have hsubfilter : ((Finset.range n).filter
      (fun i => isoRank seed rows i < k) : Set ℕ) ⊆ (Finset.range n : Set ℕ) := by
    intro x hx
    rw [Finset.mem_coe, Finset.mem_filter] at hx
    rw [Finset.mem_coe]
    exact hx.1
  calc ((Finset.range n).filter (fun i => isoRank seed rows i < k)).card
      = (((Finset.range n).filter (fun i => isoRank seed rows i < k)).image
          (isoRank seed rows)).card :=
        (Finset.card_image_of_injOn (hinj.mono hsubfilter)).symm
    _ = (((Finset.range n).image (isoRank seed rows)).filter
          (fun r => r < k)).card := by rw [Finset.filter_image]
    _ = ((Finset.range n).filter (fun r => r < k)).card := by rw [himg]
    _ = (Finset.range k).card := by
        congr 1
        ext x
        rw [Finset.mem_filter, Finset.mem_range, Finset.mem_range]
        constructor
        · exact fun h => h.2
        · exact fun h => ⟨lt_of_lt_of_le h hk, h⟩
    _ = k := Finset.card_range k

/-- The isolation-forest scorer flags exactly `⌊c · n⌋` rows when the
contamination `c` is in `[0, 1]`. -/
theorem isoForestLabels_count (seed : ℕ) (c : ℚ) (rows : List (List ℚ))
    (hc0 : 0 ≤ c) (hc1 : c ≤ 1) :
    (isoForestLabels seed c rows).count (-1) =
      (c * rows.length).floor.toNat := by
  have hcn : c * (rows.length : ℚ) ≤ (rows.length : ℚ) := by
    nlinarith [Nat.cast_nonneg (α := ℚ) rows.length]
  have hk : (c * (rows.length : ℚ)).floor.toNat ≤ rows.length := by
    rw [Int.toNat_le]
    exact_mod_cast le_trans (Int.floor_le _) hcn
  unfold isoForestLabels
  rw [List.count_eq_countP, List.countP_map]
  have hp : ((fun l => l == (-1 : ℤ)) ∘ fun i =>
      if isoRank seed rows i < (c * (rows.length : ℚ)).floor.toNat
      then (-1 : ℤ) else 1) =
      fun i => decide (isoRank seed rows i <
        (c * (rows.length : ℚ)).floor.toNat) := by
    funext i
    by_cases h : isoRank seed rows i < (c * (rows.length : ℚ)).floor.toNat
    · rw [Function.comp_apply, if_pos h, decide_eq_true h]
      decide
    · rw [Function.comp_apply, if_neg h, decide_eq_false h]
      decide
  rw [hp, List.countP_eq_length_filter, length_filter_range]
  rw [show ((Finset.range rows.length).filter (fun i =>
      decide (isoRank seed rows i <
        (c * (rows.length : ℚ)).floor.toNat) = true)) =
      ((Finset.range rows.length).filter (fun i =>
        isoRank seed rows i < (c * (rows.length : ℚ)).floor.toNat)) from by
    ext i
    simp only [Finset.mem_filter, decide_eq_true_eq]]
  exact card_isoRank_lt seed rows _ hk

/-- C7: with contamination `0.05`, the fraction of rows flagged
anomalous approximates `0.05`: the count is exactly `⌊n / 20⌋`, which
lies within `1` of `n / 20` (so on `10000` rows it is exactly `500`). -/
theorem iso_contamination_fraction (seed : ℕ) (rows : List (List ℚ)) :
    (isoForestLabels seed (1 / 20) rows).count (-1) =
      ((1 / 20 : ℚ) * rows.length).floor.toNat ∧
    (rows.length : ℚ) / 20 - 1 <
      ((isoForestLabels seed (1 / 20) rows).count (-1) : ℚ) ∧
    ((isoForestLabels seed (1 / 20) rows).count (-1) : ℚ) ≤
      (rows.length : ℚ) / 20 := by
  have hcount := isoForestLabels_count seed (1 / 20) rows
    (by norm_num) (by norm_num)
  have hfl : ((1 / 20 : ℚ) * rows.length).floor = ⌊(1 / 20 : ℚ) * rows.length⌋ :=
    rfl
  have hnn : (0 : ℤ) ≤ ⌊(1 / 20 : ℚ) * rows.length⌋ :=
    Int.floor_nonneg.mpr (by positivity)
  have hcast : (((isoForestLabels seed (1 / 20) rows).count (-1) : ℚ)) =
      ((⌊(1 / 20 : ℚ) * rows.length⌋ : ℤ) : ℚ) := by
    rw [hcount, hfl]
    have := Int.toNat_of_nonneg hnn
    exact_mod_cast congrArg (fun z : ℤ => (z : ℚ)) this
  refine ⟨hcount, ?_, ?_⟩
  · rw [hcast]
    have := Int.sub_one_lt_floor ((1 / 20 : ℚ) * rows.length)
    linarith
  · rw [hcast]
    have := Int.floor_le ((1 / 20 : ℚ) * rows.length)
    linarith

/-- C5: two `fit_predict` runs of the isolation-forest scorer with the
same fixed seed (`random_state=42`) on the same input matrix produce
identical per-row label assignments, whatever ambient entropy each run
would otherwise have drawn. -/
theorem iso_forest_deterministic (entropy₁ entropy₂ : ℕ)
    (rows : List (List ℚ)) :
    isoForestFitPredict (some 42) entropy₁ (1 / 20) rows =
      isoForestFitPredict (some 42) entropy₂ (1 / 20) rows := rfl

/-- C6: the isolation-forest scorer emits only the sentinels `-1`
(anomalous) and `+1` (normal), and the evaluator's normalization
`anomaly_iforest == -1` marks a row predicted-anomalous iff its sentinel
is `-1`. -/
theorem iso_sentinels_and_normalization (seed : ℕ) (c : ℚ)
    (rows : List (List ℚ)) (labels : List ℤ) (i : ℕ)
    (h : i < labels.length) :
    (∀ l ∈ isoForestLabels seed c rows, l = -1 ∨ l = 1) ∧
    ((isoPred labels).getD i false = true ↔ labels.getD i 0 = -1) := by
  constructor
  · intro l hl
    obtain ⟨j, _, rfl⟩ := List.mem_map.mp hl
    split_ifs <;> simp
  · unfold isoPred
    rw [getD_map_of_lt _ _ _ h 0 false]
    simp

theorem iso_sentinels_and_normalization_witness :
    (0 < ([-1, 1] : List ℤ).length) ∧
    ((∀ l ∈ isoForestLabels 42 (1 / 2) [[0], [1]], l = -1 ∨ l = 1) ∧
      ((isoPred [-1, 1]).getD 0 false = true ↔
        ([-1, 1] : List ℤ).getD 0 0 = -1)) :=
  ⟨by decide,
    iso_sentinels_and_normalization 42 (1 / 2) [[0], [1]] [-1, 1] 0 (by decide)⟩

/-! ### Pipeline claims -/

/-- C9: the notebook works on a copy (`df_encoded = df.copy()`): the raw
loaded table survives every pipeline stage unchanged, the working copy
has all object columns (label column included) integer-encoded, and the
ground-truth column is derived from the raw, un-encoded label strings of
the original table. -/
theorem raw_table_never_mutated (std : List ℚ → ℚ)
    (ae : List (List ℚ) → List (List ℚ)) (entropy : ℕ) (df : List Col) :
    (runPipeline std ae entropy df).df = df ∧
    (runPipeline std ae entropy df).dfEncoded = encodeTable df ∧
    (runPipeline std ae entropy df).trueLabel = trueLabels (col41Strings df) :=
  ⟨rfl, rfl, rfl⟩

theorem length42_eraseIdx_eq_take {α : Type _} (l : List α)
    (h : l.length = 42) : l.eraseIdx 41 = l.take 41 := by
  rw [List.eraseIdx_eq_take_drop_succ, List.drop_eq_nil_of_le (by omega),
    List.append_nil]

/-- C10: the scorers' outputs are a function of the 41 feature columns
only — two tables that agree everywhere except in the label column
(index 41) receive identical isolation-forest and autoencoder anomaly
labels, for the same seed, ambient entropy, trained reconstruction map,
and standard-deviation function. -/
theorem predictions_ignore_label_column (std : List ℚ → ℚ)
    (ae : List (List ℚ) → List (List ℚ)) (entropy : ℕ) (df₁ df₂ : List Col)
    (h₁ : df₁.length = 42) (h₂ : df₂.length = 42)
    (hagree : ∀ i < 42, i ≠ 41 → df₁[i]? = df₂[i]?) :
    (runPipeline std ae entropy df₁).anomalyIforest =
      (runPipeline std ae entropy df₂).anomalyIforest ∧
    (runPipeline std ae entropy df₁).anomalyAutoenc =
      (runPipeline std ae entropy df₂).anomalyAutoenc := by
  have htake : df₁.take 41 = df₂.take 41 := by
    apply List.ext_getElem?
    intro n
    rw [List.getElem?_take, List.getElem?_take]
    split_ifs with hn
    · exact hagree n (by omega) (by omega)
    · rfl
  have hxs : (encodeTable df₁).eraseIdx 41 = (encodeTable df₂).eraseIdx 41 := by
    rw [length42_eraseIdx_eq_take _ (by rw [encodeTable, List.length_map, h₁]),
      length42_eraseIdx_eq_take _ (by rw [encodeTable, List.length_map, h₂]),
      encodeTable, encodeTable, ← List.map_take, ← List.map_take, htake]
  have hrows : nRows df₁ = nRows df₂ := by
    unfold nRows
    rw [List.getD_eq_getElem?_getD, List.getD_eq_getElem?_getD,
      hagree 0 (by omega) (by omega)]
  constructor
  · show isoForestFitPredict (some 42) entropy (1 / 20)
      (rowsOf (((encodeTable df₁).eraseIdx 41).map (scaleCol std))
        (nRows df₁)) =
      isoForestFitPredict (some 42) entropy (1 / 20)
      (rowsOf (((encodeTable df₂).eraseIdx 41).map (scaleCol std))
        (nRows df₂))
    rw [hxs, hrows]
  · show anomalyAutoencoder std
      (mseRows (((encodeTable df₁).eraseIdx 41).map (scaleCol std))
        (ae (((encodeTable df₁).eraseIdx 41).map (scaleCol std)))
        (nRows df₁)) =
      anomalyAutoencoder std
      (mseRows (((encodeTable df₂).eraseIdx 41).map (scaleCol std))
        (ae (((encodeTable df₂).eraseIdx 41).map (scaleCol std)))
        (nRows df₂))
    rw [hxs, hrows]

theorem predictions_ignore_label_column_witness :
    ((List.replicate 41 (Col.num [0]) ++ [Col.obj ["normal."]]).length = 42 ∧
      (List.replicate 41 (Col.num [0]) ++ [Col.obj ["smurf."]]).length = 42 ∧
      (∀ i < 42, i ≠ 41 →
        (List.replicate 41 (Col.num [0]) ++ [Col.obj ["normal."]])[i]? =
        (List.replicate 41 (Col.num [0]) ++ [Col.obj ["smurf."]])[i]?)) ∧
    ((runPipeline (fun _ => 0) (fun X => X) 0
        (List.replicate 41 (Col.num [0]) ++
          [Col.obj ["normal."]])).anomalyIforest =
      (runPipeline (fun _ => 0) (fun X => X) 0
        (List.replicate 41 (Col.num [0]) ++
          [Col.obj ["smurf."]])).anomalyIforest ∧
    (runPipeline (fun _ => 0) (fun X => X) 0
        (List.replicate 41 (Col.num [0]) ++
          [Col.obj ["normal."]])).anomalyAutoenc =
      (runPipeline (fun _ => 0) (fun X => X) 0
        (List.replicate 41 (Col.num [0]) ++
          [Col.obj ["smurf."]])).anomalyAutoenc) :=
  ⟨⟨by with_unfolding_all decide, by with_unfolding_all decide,
      by with_unfolding_all decide⟩,
    predictions_ignore_label_column (fun _ => 0) (fun X => X) 0 _ _
      (by with_unfolding_all decide) (by with_unfolding_all decide)
      (by with_unfolding_all decide)⟩

end AnomalyNb
